import Mathlib

/-!
Verification of the file-organizer engine (`src/app/logic/organizer.py`).

The engine is shallowly embedded: filesystem paths are lists of name
components, the filesystem is an explicit state (a list of file paths and a
list of directory paths), and the fallibility of `shutil.move` is modelled by
an oracle telling which moves raise which exception.  The three GUI callbacks
(`update_progress`, `update_log`, `update_stats`) are modelled as event lists
accumulated in the run state.  Output sent to the `logging` module is modelled
only where a claim depends on it (`undo`); elsewhere the log-line channel is
the `update_log` callback.  The truncation `int(count / total * 100)` of the
progress percentage is modelled with exact natural division; no claim depends
on the rounding of the float product.
-/

/-- A filesystem path, as its list of name components. -/
abbrev FPath := List String

/-- Python `str.rsplit('.', 1)` specialised as in `get_unique_filename`:
split a name at its last dot into `(base, extension)`; a name with no dot
yields `(name, "")`. -/
def rsplitDot (s : String) : String × String :=
  let cs := s.data
  if cs.contains '.' then
    let r := cs.reverse
    (⟨((r.dropWhile (fun c => c ≠ '.')).drop 1).reverse⟩,
     ⟨(r.takeWhile (fun c => c ≠ '.')).reverse⟩)
  else (s, "")

/-- Python `Path(filename).name`: the part of the string after the last
slash (callers of `get_unique_filename` only pass bare names, for which this
is the identity). -/
def pyName (s : String) : String :=
  ⟨(s.data.reverse.takeWhile (fun c => c ≠ '/')).reverse⟩

/-- Python `pathlib.PurePath.suffix` of a name: `name[i:]` for `i` the index
of the last dot, provided `0 < i < len(name) - 1`, otherwise `""`. -/
def pySuffix (name : String) : String :=
  let r := name.data.reverse
  let extR := r.takeWhile (fun c => c ≠ '.')
  if 0 < extR.length ∧ extR.length + 1 < r.length then ⟨'.' :: extR.reverse⟩
  else ""

/-- Python `str.lower()`, character by character (the kernel-reducible
counterpart of core `String.toLower`, which is defined by well-founded
recursion on byte positions and does not evaluate definitionally). -/
def strToLower (s : String) : String :=
  ⟨s.data.map Char.toLower⟩

/-- The candidate name built by one iteration of the collision loop of
`get_unique_filename`: `f"{base}_{counter}.{extension}"` when the extension
is nonempty, else `f"{base}_{counter}"`. -/
def nextName (base ext : String) (counter : Nat) : String :=
  if ext = "" then base ++ "_" ++ Nat.repr counter
  else base ++ "_" ++ Nat.repr counter ++ "." ++ ext

/-- The `while (destination / current).exists()` loop of
`get_unique_filename`.  The existence test is the oracle `ex`; `fuel` bounds
the number of iterations (the callers below supply enough fuel for the loop
to reach a free name, see `get_unique_filename_in_free`). -/
def uniqueLoop (ex : String → Bool) (base ext : String) :
    Nat → Nat → String → String
  | 0, _, current => current
  | fuel + 1, counter, current =>
    if ex current then
      uniqueLoop ex base ext fuel (counter + 1) (nextName base ext counter)
    else current

/-- `Organizer.get_unique_filename`, with the filesystem-existence test
abstracted into the oracle `ex` (in the source, `ex n` is
`(destination / n).exists()`). -/
def get_unique_filename (ex : String → Bool) (fuel : Nat) (filename : String) :
    String :=
  let filename_only := pyName filename
  let p := rsplitDot filename_only
  uniqueLoop ex p.1 p.2 fuel 1 filename_only

/-- `get_unique_filename` against a destination directory whose entries are
the names in `entries`, with enough fuel to reach a free name. -/
def get_unique_filename_in (entries : List String) (filename : String) :
    String :=
  get_unique_filename (fun n => entries.contains n) (entries.length + 1)
    filename

/-- The filesystem: the set of existing regular files and the set of existing
directories, each as a list of paths.  The order of `files` is the
enumeration order of `Path.rglob`. -/
structure FS where
  files : List FPath
  dirs : List FPath
deriving DecidableEq, Repr

/-- `Path.exists`: the path is an existing file or directory. -/
def FS.existsb (fs : FS) (p : FPath) : Bool :=
  fs.files.contains p || fs.dirs.contains p

/-- `Path.mkdir(parents=True, exist_ok=True)`: create the directory and every
missing ancestor. -/
def FS.mkdirParents (fs : FS) (p : FPath) : FS :=
  { fs with
    dirs := fs.dirs ++
      (((List.range p.length).map (fun k => p.take (k + 1))).filter
        (fun q => ¬ fs.dirs.contains q)) }

/-- `shutil.move(src, dst)` in the successful case: the file leaves `src` and
appears at `dst`. -/
def FS.move (fs : FS) (src dst : FPath) : FS :=
  { fs with files := fs.files.filter (fun q => q ≠ src) ++ [dst] }

/-- Fuel that bounds the number of entries of any directory of `fs`, for the
collision loop. -/
def FS.fuel (fs : FS) : Nat :=
  fs.files.length + fs.dirs.length + 1

/-- `app.models.rule.Rule`: a category name and its extension list. -/
structure Rule where
  name : String
  extensions : List String
deriving DecidableEq, Repr

/-- The state of an `Organizer` instance (constructor arguments plus the
mutable `undo_actions` list of `(new_path, original_path)` pairs). -/
structure Organizer where
  directory : FPath
  rules : List Rule
  recursive : Bool
  dry_run : Bool
  undo_actions : List (FPath × FPath)
deriving DecidableEq, Repr

/-- The last name component of a path (`Path.name`). -/
def lastComp (p : FPath) : String := p.getLast?.getD ""

/-- `get_unique_filename` as invoked by `_get_file_destination`: the
existence oracle is the filesystem, the directory is `parent`. -/
def FS.uniqueIn (fs : FS) (parent : FPath) (filename : String) : String :=
  get_unique_filename (fun n => fs.existsb (parent ++ [n])) fs.fuel filename

/-- `Organizer._get_file_destination`: lower-case the file's suffix, scan the
rules in order for the first whose extension list contains it, and build the
destination `directory / rule.name / relative_path`, its final name made
unique by the collision loop; `("Unorganized", none)` when no rule matches. -/
def Organizer.get_file_destination (o : Organizer) (fs : FS) (fp : FPath) :
    String × Option FPath :=
  let relative := fp.drop o.directory.length
  let file_ext := strToLower (pySuffix (lastComp fp))
  match o.rules.find? (fun r => r.extensions.contains file_ext) with
  | some rule =>
    let destinationPath := (o.directory ++ [rule.name]) ++ relative
    let parent := destinationPath.dropLast
    (rule.name, some (parent ++ [fs.uniqueIn parent (lastComp destinationPath)]))
  | none => ("Unorganized", none)

/-- `Organizer.validate`: the directory exists and the rule list is
nonempty. -/
def Organizer.validate (o : Organizer) (fs : FS) : Bool :=
  fs.dirs.contains o.directory && !o.rules.isEmpty

/-- The exceptions `organize_files` catches around `shutil.move`. -/
inductive MoveErr where
  | fileNotFound
  | permission
  | osError (msg : String)
deriving DecidableEq, Repr

/-- Rendering of a path inside a log line. -/
def pathStr (p : FPath) : String :=
  String.intercalate "/" p

/-- The `update_log` line of the three `except` branches around
`shutil.move`. -/
def errLine (e : MoveErr) (rel : FPath) : String :=
  match e with
  | MoveErr.fileNotFound =>
    "Error: File not found " ++ pathStr rel ++ ". Skipping."
  | MoveErr.permission =>
    "Error: Permission denied for " ++ pathStr rel ++ ". Skipping."
  | MoveErr.osError m =>
    "Error moving file " ++ pathStr rel ++ ": " ++ m ++ ". Skipping."

/-- Python dict assignment `d[k] = v` on an insertion-ordered association
list. -/
def dictSet (d : List (String × Nat)) (k : String) (v : Nat) :
    List (String × Nat) :=
  if d.any (fun kv => kv.1 = k) then
    d.map (fun kv => if kv.1 = k then (kv.1, v) else kv)
  else d ++ [(k, v)]

/-- Python `d[k] += 1` (the callers only use it on present keys). -/
def dictInc (d : List (String × Nat)) (k : String) : List (String × Nat) :=
  d.map (fun kv => if kv.1 = k then (kv.1, kv.2 + 1) else kv)

/-- `stats = {rule.name: 0 for rule in rules}; stats['Unorganized'] = 0`. -/
def initStats (rules : List Rule) : List (String × Nat) :=
  dictSet (rules.foldl (fun d r => dictSet d r.name 0) []) "Unorganized" 0

/-- The mutable state threaded through the `organize_files` loop: the
filesystem, the undo list, the stats dict, the `update_log` lines, the
`update_progress` percentages, and the processed-files counter. -/
structure RunState where
  fs : FS
  undo : List (FPath × FPath)
  stats : List (String × Nat)
  log : List String
  progress : List Nat
  count : Nat
deriving DecidableEq, Repr

/-- The body of the `for file_path in files_to_process` loop of
`organize_files`, except for the `finally` block (progress accounting, see
`stepFile`).  `failMove fp d` tells whether `shutil.move(fp, d)` raises and
which exception. -/
def processFile (o : Organizer) (failMove : FPath → FPath → Option MoveErr)
    (st : RunState) (fp : FPath) : RunState :=
  if ¬ o.recursive ∧ fp.dropLast ≠ o.directory then
    st
  else
    match o.get_file_destination st.fs fp with
    | (rule_name, some destination) =>
      let fs1 := st.fs.mkdirParents destination.dropLast
      let rel := fp.drop o.directory.length
      let relDest := destination.drop o.directory.length
      if ¬ o.dry_run then
        match failMove fp destination with
        | none =>
          { st with
            fs := fs1.move fp destination
            undo := st.undo ++ [(destination, fp)]
            log := st.log ++
              ["Moved " ++ pathStr rel ++ " to " ++ pathStr relDest]
            stats := dictInc st.stats rule_name }
        | some e =>
          { st with
            fs := fs1
            log := st.log ++ [errLine e rel]
            stats := dictInc st.stats "Unorganized" }
      else
        { st with
          fs := fs1
          log := st.log ++
            ["Would move " ++ pathStr rel ++ " to " ++ pathStr relDest]
          stats := dictInc st.stats rule_name }
    | (rule_name, none) =>
      { st with
        log := st.log ++
          ["Unrecognized file type: " ++ pathStr (fp.drop o.directory.length)]
        stats := dictInc st.stats rule_name }

/-- One full iteration of the loop: the body, then the `finally` block, which
increments the processed-files counter and reports progress when the total is
nonzero. -/
def stepFile (o : Organizer) (failMove : FPath → FPath → Option MoveErr)
    (total : Nat) (st : RunState) (fp : FPath) : RunState :=
  let st1 := processFile o failMove st fp
  if 0 < total then
    { st1 with
      count := st1.count + 1
      progress := st1.progress ++ [(st1.count + 1) * 100 / total] }
  else { st1 with count := st1.count + 1 }

/-- `[f for f in self.directory.rglob('*') if f.is_file()]`: the existing
files strictly below the directory, in enumeration order. -/
def filesUnder (fs : FS) (dir : FPath) : List FPath :=
  fs.files.filter
    (fun f => f.take dir.length = dir ∧ dir.length < f.length)

/-- The observable outcome of one `organize_files` call: the final
filesystem and the events sent to the three callbacks. -/
structure RunResult where
  fs : FS
  log : List String
  progress : List Nat
  statsReports : List (List (String × Nat))
deriving DecidableEq, Repr

/-- `Organizer.organize_files`.  Returns the updated engine instance (its
`undo_actions` list is the only mutated attribute) together with the run's
observable outcome. -/
def Organizer.organize_files (o : Organizer) (fs : FS)
    (failMove : FPath → FPath → Option MoveErr) : Organizer × RunResult :=
  if ¬ o.validate fs then
    (o, { fs := fs
          log := ["Validation failed. Please check your directory and rules."]
          progress := []
          statsReports := [] })
  else
    let files := filesUnder fs o.directory
    let total := files.length
    let st0 : RunState :=
      { fs := fs, undo := o.undo_actions, stats := initStats o.rules
        log := [], progress := [], count := 0 }
    let stF := files.foldl (stepFile o failMove total) st0
    let finalLine :=
      if ¬ o.dry_run then "Organization complete!"
      else "Dry run complete. No files were actually moved."
    ({ o with undo_actions := stF.undo },
     { fs := stF.fs
       log := stF.log ++ [finalLine]
       progress := stF.progress
       statsReports := [stF.stats] })

/-- `Organizer.undo`.  `failUndo new orig` tells whether
`shutil.move(new, orig)` raises; the returned string list holds the
`self.logger` lines, in emission order. -/
def Organizer.undo (o : Organizer) (fs : FS)
    (failUndo : FPath → FPath → Bool) : Organizer × FS × List String :=
  if o.undo_actions.isEmpty then
    (o, fs, [])
  else
    let step := fun (acc : FS × List String) (e : FPath × FPath) =>
      let fs1 := acc.1.mkdirParents e.2.dropLast
      if failUndo e.1 e.2 then
        (fs1, acc.2 ++
          ["Error undoing move from " ++ pathStr e.1 ++ " to " ++
            pathStr e.2])
      else
        (fs1.move e.1 e.2, acc.2 ++
          ["Moved " ++ pathStr e.1 ++ " back to " ++ pathStr e.2])
    let r := o.undo_actions.reverse.foldl step (fs, [])
    ({ o with undo_actions := [] }, r.1, r.2)

/-- The category `organize_files` charges a file to: the name of the first
rule whose extension list contains the file's lower-cased suffix, and
`"Unorganized"` when no rule matches.  This is the first component of
`get_file_destination`, which does not depend on the filesystem. -/
def categoryOf (o : Organizer) (fp : FPath) : String :=
  match o.rules.find?
      (fun r => r.extensions.contains (strToLower (pySuffix (lastComp fp)))) with
  | some rule => rule.name
  | none => "Unorganized"

/-- A file is classified (rather than skipped) when the run is recursive or
the file sits directly in the root directory. -/
def eligible (o : Organizer) (fp : FPath) : Prop :=
  o.recursive = true ∨ fp.dropLast = o.directory

instance (o : Organizer) (fp : FPath) : Decidable (eligible o fp) := by
  unfold eligible
  infer_instance

/-- The keys of a stats dict, in insertion order. -/
def keys (d : List (String × Nat)) : List String := d.map (fun kv => kv.1)

/-- The sum of the counters of a stats dict. -/
def sumStats (d : List (String × Nat)) : Nat := (d.map (fun kv => kv.2)).sum

/-- The per-file evolution of the stats dict during a dry run: eligible files
bump their category, skipped files change nothing.  A pure function of the
rule set and the file list, used to state that two consecutive dry runs
report the same stats. -/
def dryStatsStep (o : Organizer) (d : List (String × Nat)) (fp : FPath) :
    List (String × Nat) :=
  if eligible o fp then dictInc d (categoryOf o fp) else d

/-- The candidate tested at the `k`-th iteration of `uniqueLoop`, starting
from counter `counter` and current candidate `cur`. -/
def iterCand (base ext : String) : Nat → Nat → String → String
  | 0, _, cur => cur
  | k + 1, counter, _ => iterCand base ext k (counter + 1)
      (nextName base ext counter)

/-- The spec's reading of rule matching, for comparison with the code:
the first rule whose extension set contains a string equal *up to letter
case* to the file's suffix wins ("Extensions are compared case-insensitively
against a file's suffix").  The code instead lower-cases only the file's
suffix and tests verbatim membership. -/
def specMatchCI (rules : List Rule) (sfx : String) : String :=
  match rules.find?
      (fun r => r.extensions.any (fun e => strToLower e = strToLower sfx)) with
  | some r => r.name
  | none => "Unorganized"

/-- A move oracle under which every `shutil.move` succeeds. -/
def noFailMove : FPath → FPath → Option MoveErr := fun _ _ => none

/-- An undo oracle under which every `shutil.move` succeeds. -/
def noFailUndo : FPath → FPath → Bool := fun _ _ => false

/-! ### Decimal representation: `Nat.repr` is injective -/

/-- The decimal digits of `n`, most significant first, as produced by
`Nat.toDigitsCore 10`. -/
def natRepr (n : Nat) : List Char :=
  if _h : n < 10 then [Nat.digitChar n]
  else natRepr (n / 10) ++ [Nat.digitChar (n % 10)]
termination_by n
decreasing_by
  exact Nat.div_lt_self (by omega) (by omega)

theorem toDigitsCore_ten_eq (fuel : Nat) :
    ∀ n ds, n < fuel →
      Nat.toDigitsCore 10 fuel n ds = natRepr n ++ ds := by
  induction fuel with
  | zero => intro n ds h; omega
  | succ fuel ih =>
    intro n ds h
    rw [Nat.toDigitsCore]
    by_cases h10 : n / 10 = 0
    · have hn : n < 10 := by omega
      rw [natRepr, dif_pos hn, h10, if_pos rfl]
      have : n % 10 = n := Nat.mod_eq_of_lt hn
      rw [this]
      rfl
    · rw [if_neg h10]
      have hlt : n / 10 < fuel := by
        have : n / 10 < n := Nat.div_lt_self (by omega) (by omega)
        omega
      rw [ih (n / 10) (Nat.digitChar (n % 10) :: ds) hlt]
      have hn : ¬ n < 10 := by
        intro hc
        exact h10 (Nat.div_eq_of_lt hc)
      conv_rhs => rw [natRepr]
      rw [dif_neg hn]
      simp

theorem repr_data (n : Nat) : (Nat.repr n).data = natRepr n := by
  show (Nat.toDigits 10 n).asString.data = natRepr n
  rw [Nat.toDigits, toDigitsCore_ten_eq (n + 1) n [] (Nat.lt_succ_self n)]
  simp [List.asString]

theorem digitChar_val (d : Nat) (h : d < 10) :
    (Nat.digitChar d).toNat - 48 = d := by
  interval_cases d <;> decide

theorem natRepr_foldl (n : Nat) :
    ∀ a : Nat,
      (natRepr n).foldl (fun acc c => acc * 10 + (c.toNat - 48)) a =
        a * 10 ^ (natRepr n).length + n := by
  induction n using Nat.strong_induction_on with
  | _ n ih =>
    intro a
    by_cases h : n < 10
    · rw [natRepr, dif_pos h]
      simp [digitChar_val n h]
    · rw [natRepr, dif_neg h]
      have hdiv : n / 10 < n := Nat.div_lt_self (by omega) (by omega)
      rw [List.foldl_append, ih (n / 10) hdiv a]
      simp only [List.foldl_cons, List.foldl_nil, List.length_append,
        List.length_singleton]
      rw [digitChar_val (n % 10) (Nat.mod_lt n (by omega))]
      have hmod : n / 10 * 10 + n % 10 = n := Nat.div_add_mod n 10 ▸ by omega
      rw [pow_succ]
      ring_nf
      omega

theorem natRepr_injective : Function.Injective natRepr := by
  intro m n h
  have hm := natRepr_foldl m 0
  have hn := natRepr_foldl n 0
  rw [h] at hm
  omega

theorem natRepr_eq_of_repr_eq {m n : Nat} (h : Nat.repr m = Nat.repr n) :
    m = n := by
  apply natRepr_injective
  rw [← repr_data, ← repr_data, h]

/-! ### The collision loop reaches a free name -/

theorem nextName_inj (base ext : String) {i j : Nat}
    (h : nextName base ext i = nextName base ext j) : i = j := by
  apply natRepr_injective
  rw [← repr_data, ← repr_data]
  unfold nextName at h
  by_cases he : ext = ""
  · rw [if_pos he, if_pos he] at h
    have hd := congrArg String.data h
    simp only [String.data_append, List.append_assoc] at hd
    have hd2 := List.append_cancel_left hd
    have hd3 := List.append_cancel_left hd2
    exact hd3
  · rw [if_neg he, if_neg he] at h
    have hd := congrArg String.data h
    simp only [String.data_append, List.append_assoc] at hd
    have hd2 := List.append_cancel_left (List.append_cancel_left hd)
    exact List.append_cancel_right hd2

theorem dropWhile_head_not {α : Type} {p : α → Bool} :
    ∀ (l : List α) (c : α) (t : List α), l.dropWhile p = c :: t →
      p c = false := by
  intro l
  induction l with
  | nil => intro c t h; simp [List.dropWhile] at h
  | cons a l ih =>
    intro c t h
    rw [List.dropWhile_cons] at h
    by_cases hp : p a
    · rw [if_pos hp] at h
      exact ih c t h
    · rw [if_neg hp] at h
      cases h
      simpa using hp

theorem rsplitDot_data (s : String) (h : s.data.contains '.' = true) :
    s.data = (rsplitDot s).1.data ++ '.' :: (rsplitDot s).2.data := by
  have hmem : '.' ∈ s.data.reverse := by
    simp only [List.mem_reverse]
    simpa using h
  have hne : s.data.reverse.dropWhile (fun c => c ≠ '.') ≠ [] := by
    intro hnil
    have := List.dropWhile_eq_nil_iff.mp hnil '.' hmem
    simp at this
  obtain ⟨c, t, hct⟩ :
      ∃ c t, s.data.reverse.dropWhile (fun c => c ≠ '.') = c :: t := by
    cases hcase : s.data.reverse.dropWhile (fun c => c ≠ '.') with
    | nil => exact absurd hcase hne
    | cons c t => exact ⟨c, t, rfl⟩
  have hc : c = '.' := by
    have := dropWhile_head_not s.data.reverse c t hct
    simpa using this
  subst hc
  have hsplit := List.takeWhile_append_dropWhile
    (p := fun c => c ≠ '.') (l := s.data.reverse)
  rw [hct] at hsplit
  simp only [rsplitDot, h, if_pos]
  show s.data =
    ((s.data.reverse.dropWhile (fun c => c ≠ '.')).drop 1).reverse ++
      '.' :: (s.data.reverse.takeWhile (fun c => c ≠ '.')).reverse
  rw [hct]
  set tw := s.data.reverse.takeWhile (fun c => c ≠ '.') with htw
  have hrev : s.data = (tw ++ '.' :: t).reverse := by
    rw [hsplit]
    exact (List.reverse_reverse _).symm
  rw [hrev, List.reverse_append, List.reverse_cons, List.append_assoc]
  simp

theorem rsplitDot_nodot (s : String) (h : s.data.contains '.' = false) :
    rsplitDot s = (s, "") := by
  simp only [rsplitDot, h]
  simp

theorem self_ne_nextName (s : String) (i : Nat) :
    s ≠ nextName (rsplitDot s).1 (rsplitDot s).2 i := by
  intro h
  by_cases hd : s.data.contains '.' = true
  · have hspec := rsplitDot_data s hd
    have hdata := congrArg String.data h
    unfold nextName at hdata
    by_cases he : (rsplitDot s).2 = ""
    · rw [if_pos he] at hdata
      rw [hspec, he] at hdata
      simp only [String.data_append, List.append_assoc] at hdata
      have h2 := List.append_cancel_left hdata
      simp at h2
    · rw [if_neg he] at hdata
      rw [hspec] at hdata
      simp only [String.data_append, List.append_assoc] at hdata
      have h2 := List.append_cancel_left hdata
      simp at h2
  · have hnodot : s.data.contains '.' = false := by
      cases hcase : s.data.contains '.' with
      | false => rfl
      | true => exact absurd hcase hd
    rw [rsplitDot_nodot s hnodot] at h
    unfold nextName at h
    rw [if_pos rfl] at h
    have hdata := congrArg String.data h
    simp only [String.data_append] at hdata
    have hlen := congrArg List.length hdata
    simp only [List.length_append] at hlen
    simp at hlen
    omega

theorem iterCand_succ (base ext : String) (k : Nat) :
    ∀ counter cur, iterCand base ext (k + 1) counter cur =
      nextName base ext (counter + k) := by
  induction k with
  | zero => intro counter cur; rfl
  | succ k ih =>
    intro counter cur
    show iterCand base ext (k + 1) (counter + 1) (nextName base ext counter) =
      nextName base ext (counter + (k + 1))
    rw [ih]
    congr 1
    omega

theorem uniqueLoop_free (ex : String → Bool) (base ext : String) :
    ∀ fuel counter cur,
      (∃ k, k < fuel ∧ ex (iterCand base ext k counter cur) = false) →
      ex (uniqueLoop ex base ext fuel counter cur) = false := by
  intro fuel
  induction fuel with
  | zero => intro counter cur h; obtain ⟨k, hk, _⟩ := h; omega
  | succ fuel ih =>
    intro counter cur h
    rw [uniqueLoop]
    cases hex : ex cur with
    | false => simp [hex]
    | true =>
      simp only [hex, if_true]
      apply ih
      obtain ⟨k, hk, hfree⟩ := h
      cases k with
      | zero => rw [iterCand] at hfree; rw [hex] at hfree; cases hfree
      | succ k =>
        refine ⟨k, by omega, ?_⟩
        exact hfree

theorem exists_free_index (entries : List String) (c : Nat → String)
    (hc : ∀ i j, i ≤ entries.length → j ≤ entries.length → c i = c j →
      i = j) :
    ∃ k, k ≤ entries.length ∧ c k ∉ entries := by
  by_contra hcon
  push_neg at hcon
  have hmap : ∀ a ∈ Finset.range (entries.length + 1),
      c a ∈ entries.toFinset := by
    intro a ha
    rw [List.mem_toFinset]
    exact hcon a (by simpa [Nat.lt_succ_iff] using ha)
  have hinj : Set.InjOn c ↑(Finset.range (entries.length + 1)) := by
    intro i hi j hj hij
    simp only [Finset.coe_range, Set.mem_Iio] at hi hj
    exact hc i j (by omega) (by omega) hij
  have hle := Finset.card_le_card_of_injOn c hmap hinj
  rw [Finset.card_range] at hle
  have h2 := entries.toFinset_card_le
  omega

theorem get_unique_filename_in_free (entries : List String)
    (filename : String) :
    entries.contains (get_unique_filename_in entries filename) = false := by
  show entries.contains
    (uniqueLoop (fun n => entries.contains n) (rsplitDot (pyName filename)).1
      (rsplitDot (pyName filename)).2 (entries.length + 1) 1
      (pyName filename)) = false
  set s := pyName filename with hs
  set b := (rsplitDot s).1 with hb
  set e := (rsplitDot s).2 with he
  have hcand : ∀ k, iterCand b e k 1 s =
      if k = 0 then s else nextName b e k := by
    intro k
    cases k with
    | zero => rfl
    | succ k =>
      rw [iterCand_succ]
      simp only [Nat.succ_ne_zero, if_neg, if_false]
      congr 1
      omega
  have hinj : ∀ i j, i ≤ entries.length → j ≤ entries.length →
      iterCand b e i 1 s = iterCand b e j 1 s → i = j := by
    intro i j _ _ hij
    rw [hcand i, hcand j] at hij
    cases i with
    | zero =>
      cases j with
      | zero => rfl
      | succ j =>
        simp only [if_pos, Nat.succ_ne_zero, if_neg, if_false] at hij
        exact absurd (hb ▸ he ▸ hij) (self_ne_nextName s (j + 1))
    | succ i =>
      cases j with
      | zero =>
        simp only [if_pos, Nat.succ_ne_zero, if_neg, if_false] at hij
        exact absurd (hb ▸ he ▸ hij.symm) (self_ne_nextName s (i + 1))
      | succ j =>
        simp only [Nat.succ_ne_zero, if_neg, if_false] at hij
        exact nextName_inj b e hij
  obtain ⟨k, hk, hfree⟩ :=
    exists_free_index entries (fun k => iterCand b e k 1 s) hinj
  apply uniqueLoop_free
  refine ⟨k, by omega, ?_⟩
  simpa using hfree

/-! ### Stats dict lemmas -/

theorem keys_dictInc (d : List (String × Nat)) (k : String) :
    keys (dictInc d k) = keys d := by
  induction d with
  | nil => rfl
  | cons kv d ih =>
    simp only [dictInc, keys, List.map_cons] at ih ⊢
    by_cases h : kv.1 = k <;> simp [h, ih]

theorem dictInc_not_mem (d : List (String × Nat)) (k : String) :
    k ∉ keys d → dictInc d k = d := by
  induction d with
  | nil => intro _; rfl
  | cons kv d ih =>
    intro h
    simp only [keys, List.map_cons, List.mem_cons] at h
    push_neg at h
    simp only [dictInc, List.map_cons]
    rw [if_neg (fun hh => h.1 hh.symm)]
    have hrest : k ∉ keys d := by
      simp only [keys]
      exact h.2
    have := ih hrest
    simp only [dictInc] at this
    rw [this]

theorem sumStats_dictInc (d : List (String × Nat)) (k : String) :
    (keys d).Nodup → k ∈ keys d →
      sumStats (dictInc d k) = sumStats d + 1 := by
  induction d with
  | nil => intro _ h; simp [keys] at h
  | cons kv d ih =>
    intro hnd hk
    simp only [keys, List.map_cons, List.nodup_cons] at hnd
    simp only [keys, List.map_cons, List.mem_cons] at hk
    by_cases h : kv.1 = k
    · subst h
      simp only [dictInc, List.map_cons, if_pos]
      have hrest : dictInc d kv.1 = d := by
        apply dictInc_not_mem
        simp only [keys]
        exact hnd.1
      simp only [dictInc] at hrest
      rw [hrest]
      simp [sumStats]
      omega
    · have hk2 : k ∈ keys d := by
        rcases hk with h1 | h2
        · exact absurd h1.symm h
        · simpa [keys] using h2
      have := ih hnd.2 hk2
      simp only [dictInc, List.map_cons, if_neg h]
      simp only [sumStats, List.map_cons, List.sum_cons] at this ⊢
      simp only [dictInc] at this
      omega

theorem any_keys_iff (d : List (String × Nat)) (k : String) :
    d.any (fun kv => kv.1 = k) = true ↔ k ∈ keys d := by
  rw [List.any_eq_true]
  constructor
  · rintro ⟨kv, hmem, hkv⟩
    simp only [decide_eq_true_eq] at hkv
    simp only [keys, List.mem_map]
    exact ⟨kv, hmem, hkv⟩
  · intro hk
    simp only [keys, List.mem_map] at hk
    obtain ⟨kv, hmem, hkv⟩ := hk
    exact ⟨kv, hmem, by simp [hkv]⟩

theorem keys_set_map (d : List (String × Nat)) (k : String) (v : Nat) :
    keys (d.map (fun kv => if kv.1 = k then (kv.1, v) else kv)) = keys d := by
  induction d with
  | nil => rfl
  | cons kv d ih =>
    simp only [keys, List.map_cons] at ih ⊢
    by_cases h : kv.1 = k <;> simp [h, ih]

theorem keys_dictSet (d : List (String × Nat)) (k : String) (v : Nat) :
    keys (dictSet d k v) =
      if k ∈ keys d then keys d else keys d ++ [k] := by
  unfold dictSet
  by_cases h : k ∈ keys d
  · rw [if_pos ((any_keys_iff d k).mpr h), if_pos h]
    exact keys_set_map d k v
  · have hany : ¬ d.any (fun kv => kv.1 = k) = true := by
      intro hc
      exact h ((any_keys_iff d k).mp hc)
    rw [if_neg hany, if_neg h]
    simp [keys]

theorem mem_keys_dictSet (d : List (String × Nat)) (k : String) (v : Nat) :
    k ∈ keys (dictSet d k v) := by
  rw [keys_dictSet]
  by_cases h : k ∈ keys d
  · rw [if_pos h]; exact h
  · rw [if_neg h]; simp

theorem keys_dictSet_subset (d : List (String × Nat)) (k : String) (v : Nat) :
    keys d ⊆ keys (dictSet d k v) := by
  rw [keys_dictSet]
  by_cases h : k ∈ keys d
  · rw [if_pos h]
    exact fun a ha => ha
  · rw [if_neg h]
    exact List.subset_append_left _ _

theorem nodup_keys_dictSet (d : List (String × Nat)) (k : String) (v : Nat)
    (hnd : (keys d).Nodup) : (keys (dictSet d k v)).Nodup := by
  rw [keys_dictSet]
  by_cases h : k ∈ keys d
  · rw [if_pos h]; exact hnd
  · rw [if_neg h]
    rw [List.nodup_append]
    refine ⟨hnd, List.nodup_singleton k, ?_⟩
    intro a ha hb
    simp only [List.mem_singleton] at hb
    exact h (hb ▸ ha)

theorem dictSet_zero (d : List (String × Nat)) (k : String)
    (hz : ∀ kv ∈ d, kv.2 = 0) : ∀ kv ∈ dictSet d k 0, kv.2 = 0 := by
  unfold dictSet
  by_cases h : d.any (fun kv => kv.1 = k) = true
  · rw [if_pos h]
    intro kv hkv
    simp only [List.mem_map] at hkv
    obtain ⟨kv0, hmem, hkv0⟩ := hkv
    by_cases h0 : kv0.1 = k
    · rw [if_pos h0] at hkv0
      rw [← hkv0]
    · rw [if_neg h0] at hkv0
      rw [← hkv0]
      exact hz kv0 hmem
  · rw [if_neg h]
    intro kv hkv
    rcases List.mem_append.mp hkv with h1 | h2
    · exact hz kv h1
    · simp only [List.mem_singleton] at h2
      rw [h2]

theorem foldl_dictSet_keys_subset :
    ∀ (rules : List Rule) (d : List (String × Nat)),
      keys d ⊆ keys (rules.foldl (fun d r => dictSet d r.name 0) d) := by
  intro rules
  induction rules with
  | nil => intro d a ha; exact ha
  | cons r rules ih =>
    intro d
    exact (keys_dictSet_subset d r.name 0).trans (ih (dictSet d r.name 0))

theorem mem_keys_foldl_dictSet :
    ∀ (rules : List Rule) (d : List (String × Nat)) (r : Rule),
      r ∈ rules →
      r.name ∈ keys (rules.foldl (fun d r => dictSet d r.name 0) d) := by
  intro rules
  induction rules with
  | nil => intro d r h; cases h
  | cons r0 rules ih =>
    intro d r h
    rcases List.mem_cons.mp h with h1 | h2
    · subst h1
      exact foldl_dictSet_keys_subset rules (dictSet d r.name 0)
        (mem_keys_dictSet d r.name 0)
    · exact ih (dictSet d r0.name 0) r h2

theorem nodup_keys_foldl_dictSet :
    ∀ (rules : List Rule) (d : List (String × Nat)),
      (keys d).Nodup →
      (keys (rules.foldl (fun d r => dictSet d r.name 0) d)).Nodup := by
  intro rules
  induction rules with
  | nil => intro d h; exact h
  | cons r rules ih =>
    intro d h
    exact ih (dictSet d r.name 0) (nodup_keys_dictSet d r.name 0 h)

theorem zero_foldl_dictSet :
    ∀ (rules : List Rule) (d : List (String × Nat)),
      (∀ kv ∈ d, kv.2 = 0) →
      ∀ kv ∈ rules.foldl (fun d r => dictSet d r.name 0) d, kv.2 = 0 := by
  intro rules
  induction rules with
  | nil => intro d h; exact h
  | cons r rules ih =>
    intro d h
    exact ih (dictSet d r.name 0) (dictSet_zero d r.name h)

theorem mem_keys_initStats_unorg (rules : List Rule) :
    "Unorganized" ∈ keys (initStats rules) := by
  unfold initStats
  exact mem_keys_dictSet _ "Unorganized" 0

theorem mem_keys_initStats_rule (rules : List Rule) (r : Rule)
    (h : r ∈ rules) : r.name ∈ keys (initStats rules) := by
  unfold initStats
  exact keys_dictSet_subset _ "Unorganized" 0
    (mem_keys_foldl_dictSet rules [] r h)

theorem nodup_keys_initStats (rules : List Rule) :
    (keys (initStats rules)).Nodup := by
  unfold initStats
  exact nodup_keys_dictSet _ "Unorganized" 0
    (nodup_keys_foldl_dictSet rules [] (by simp [keys]))

theorem sumStats_initStats (rules : List Rule) :
    sumStats (initStats rules) = 0 := by
  have hz : ∀ kv ∈ initStats rules, kv.2 = 0 := by
    unfold initStats
    exact dictSet_zero _ "Unorganized"
      (zero_foldl_dictSet rules [] (by intro kv h; cases h))
  unfold sumStats
  apply List.sum_eq_zero
  intro x hx
  simp only [List.mem_map] at hx
  obtain ⟨kv, hmem, hkv⟩ := hx
  rw [← hkv]
  exact hz kv hmem

/-! ### Facts about `get_file_destination` -/

theorem get_file_destination_fst (o : Organizer) (fs : FS) (fp : FPath) :
    (o.get_file_destination fs fp).1 = categoryOf o fp := by
  unfold Organizer.get_file_destination categoryOf
  dsimp only []
  split <;> rfl

theorem get_file_destination_none (o : Organizer) (fs : FS) (fp : FPath)
    (h : (o.get_file_destination fs fp).2 = none) :
    o.get_file_destination fs fp = ("Unorganized", none) := by
  unfold Organizer.get_file_destination at h ⊢
  dsimp only [] at h ⊢
  split at h
  next rule heq => simp at h
  next heq => rfl

theorem categoryOf_mem_keys (o : Organizer) (fp : FPath) :
    categoryOf o fp ∈ keys (initStats o.rules) := by
  unfold categoryOf
  split
  next rule hfind =>
    exact mem_keys_initStats_rule o.rules rule
      (List.mem_of_find?_eq_some hfind)
  next hfind => exact mem_keys_initStats_unorg o.rules

/-! ### Characterization of one loop iteration -/

theorem processFile_char (o : Organizer)
    (failMove : FPath → FPath → Option MoveErr) (st : RunState) (fp : FPath) :
    (¬ eligible o fp ∧ processFile o failMove st fp = st) ∨
    (eligible o fp ∧
      ((∃ destination,
          (o.get_file_destination st.fs fp).2 = some destination ∧
          ((o.dry_run = false ∧ failMove fp destination = none ∧
              processFile o failMove st fp =
                { st with
                  fs := (st.fs.mkdirParents destination.dropLast).move fp
                          destination
                  undo := st.undo ++ [(destination, fp)]
                  log := st.log ++
                    ["Moved " ++ pathStr (fp.drop o.directory.length) ++
                      " to " ++
                      pathStr (destination.drop o.directory.length)]
                  stats := dictInc st.stats (categoryOf o fp) }) ∨
           (∃ e, o.dry_run = false ∧ failMove fp destination = some e ∧
              processFile o failMove st fp =
                { st with
                  fs := st.fs.mkdirParents destination.dropLast
                  log := st.log ++ [errLine e (fp.drop o.directory.length)]
                  stats := dictInc st.stats "Unorganized" }) ∨
           (o.dry_run = true ∧
              processFile o failMove st fp =
                { st with
                  fs := st.fs.mkdirParents destination.dropLast
                  log := st.log ++
                    ["Would move " ++ pathStr (fp.drop o.directory.length) ++
                      " to " ++
                      pathStr (destination.drop o.directory.length)]
                  stats := dictInc st.stats (categoryOf o fp) }))) ∨
        ((o.get_file_destination st.fs fp).2 = none ∧
          processFile o failMove st fp =
            { st with
              log := st.log ++
                ["Unrecognized file type: " ++
                  pathStr (fp.drop o.directory.length)]
              stats := dictInc st.stats "Unorganized" }))) := by
  by_cases hskip : ¬ o.recursive ∧ fp.dropLast ≠ o.directory
  · left
    refine ⟨?_, ?_⟩
    · rintro (h | h)
      · exact hskip.1 h
      · exact hskip.2 h
    · unfold processFile
      rw [if_pos hskip]
  · have helig : eligible o fp := by
      by_cases hr : o.recursive = true
      · exact Or.inl hr
      · by_cases hp : fp.dropLast = o.directory
        · exact Or.inr hp
        · exact absurd ⟨fun hh => hr hh, hp⟩ hskip
    right
    refine ⟨helig, ?_⟩
    unfold processFile
    rw [if_neg hskip]
    dsimp only []
    split
    next rule_name destination heq =>
      have hname : rule_name = categoryOf o fp := by
        rw [← get_file_destination_fst o st.fs fp, heq]
      left
      refine ⟨destination, ?_, ?_⟩
      · rw [heq]
      · cases hdry : o.dry_run with
        | false =>
          rw [if_pos (by simp)]
          split
          next hfail =>
            left
            refine ⟨rfl, hfail, ?_⟩
            rw [hname]
          next e hfail =>
            right; left
            exact ⟨e, rfl, hfail, rfl⟩
        | true =>
          rw [if_neg (by simp)]
          right; right
          refine ⟨rfl, ?_⟩
          rw [hname]
    next rule_name heq =>
      right
      refine ⟨?_, ?_⟩
      · rw [heq]
      · have hu := get_file_destination_none o st.fs fp (by rw [heq])
        rw [heq] at hu
        have hr : rule_name = "Unorganized" := by
          injection hu with h1 h2
        rw [hr]

theorem FS.mkdirParents_files (fs : FS) (p : FPath) :
    (fs.mkdirParents p).files = fs.files := rfl

theorem FS.move_dirs (fs : FS) (s d : FPath) :
    (fs.move s d).dirs = fs.dirs := rfl

theorem FS.mkdirParents_dirs_mem (fs : FS) (p q : FPath)
    (h : q ∈ fs.dirs) : q ∈ (fs.mkdirParents p).dirs := by
  unfold FS.mkdirParents
  exact List.mem_append_left _ h

theorem stepFile_proj (o : Organizer)
    (f : FPath → FPath → Option MoveErr) (total : Nat) (st : RunState)
    (fp : FPath) :
    (stepFile o f total st fp).undo = (processFile o f st fp).undo ∧
    (stepFile o f total st fp).stats = (processFile o f st fp).stats ∧
    (stepFile o f total st fp).fs = (processFile o f st fp).fs ∧
    (stepFile o f total st fp).log = (processFile o f st fp).log ∧
    (stepFile o f total st fp).progress =
      (processFile o f st fp).progress ++
        (if 0 < total then
          [((processFile o f st fp).count + 1) * 100 / total] else []) := by
  unfold stepFile
  by_cases h : 0 < total
  · rw [if_pos h]
    exact ⟨rfl, rfl, rfl, rfl, by rw [if_pos h]⟩
  · rw [if_neg h]
    refine ⟨rfl, rfl, rfl, rfl, ?_⟩
    rw [if_neg h]
    simp

theorem processFile_progress (o : Organizer)
    (f : FPath → FPath → Option MoveErr) (st : RunState) (fp : FPath) :
    (processFile o f st fp).progress = st.progress := by
  rcases processFile_char o f st fp with ⟨_, hpf⟩ |
    ⟨_, ⟨d, _, ⟨_, _, hpf⟩ | ⟨e, _, _, hpf⟩ | ⟨_, hpf⟩⟩ | ⟨_, hpf⟩⟩ <;>
    rw [hpf]

theorem processFile_undo (o : Organizer)
    (f : FPath → FPath → Option MoveErr) (st : RunState) (fp : FPath) :
    (processFile o f st fp).undo = st.undo ∨
    ∃ d, f fp d = none ∧
      (processFile o f st fp).undo = st.undo ++ [(d, fp)] := by
  rcases processFile_char o f st fp with ⟨_, hpf⟩ |
    ⟨_, ⟨d, _, ⟨_, hfail, hpf⟩ | ⟨e, _, _, hpf⟩ | ⟨_, hpf⟩⟩ | ⟨_, hpf⟩⟩
  · left; rw [hpf]
  · right; exact ⟨d, hfail, by rw [hpf]⟩
  · left; rw [hpf]
  · left; rw [hpf]
  · left; rw [hpf]

theorem processFile_stats (o : Organizer)
    (f : FPath → FPath → Option MoveErr) (st : RunState) (fp : FPath) :
    (¬ eligible o fp ∧ (processFile o f st fp).stats = st.stats) ∨
    (eligible o fp ∧ ∃ k, k ∈ keys (initStats o.rules) ∧
      (processFile o f st fp).stats = dictInc st.stats k) := by
  rcases processFile_char o f st fp with ⟨hne, hpf⟩ |
    ⟨helig, ⟨d, _, ⟨_, _, hpf⟩ | ⟨e, _, _, hpf⟩ | ⟨_, hpf⟩⟩ | ⟨_, hpf⟩⟩
  · left; exact ⟨hne, by rw [hpf]⟩
  · right
    exact ⟨helig, categoryOf o fp, categoryOf_mem_keys o fp, by rw [hpf]⟩
  · right
    exact ⟨helig, "Unorganized", mem_keys_initStats_unorg o.rules,
      by rw [hpf]⟩
  · right
    exact ⟨helig, categoryOf o fp, categoryOf_mem_keys o fp, by rw [hpf]⟩
  · right
    exact ⟨helig, "Unorganized", mem_keys_initStats_unorg o.rules,
      by rw [hpf]⟩

theorem processFile_dirs_mem (o : Organizer)
    (f : FPath → FPath → Option MoveErr) (st : RunState) (fp : FPath)
    (q : FPath) (h : q ∈ st.fs.dirs) :
    q ∈ (processFile o f st fp).fs.dirs := by
  rcases processFile_char o f st fp with ⟨_, hpf⟩ |
    ⟨_, ⟨d, _, ⟨_, _, hpf⟩ | ⟨e, _, _, hpf⟩ | ⟨_, hpf⟩⟩ | ⟨_, hpf⟩⟩
  · rw [hpf]; exact h
  · rw [hpf]
    show q ∈ ((st.fs.mkdirParents d.dropLast).move fp d).dirs
    rw [FS.move_dirs]
    exact FS.mkdirParents_dirs_mem st.fs d.dropLast q h
  · rw [hpf]
    exact FS.mkdirParents_dirs_mem st.fs d.dropLast q h
  · rw [hpf]
    exact FS.mkdirParents_dirs_mem st.fs d.dropLast q h
  · rw [hpf]; exact h

theorem processFile_dry (o : Organizer)
    (f : FPath → FPath → Option MoveErr) (st : RunState) (fp : FPath)
    (hdry : o.dry_run = true) :
    (processFile o f st fp).undo = st.undo ∧
    (processFile o f st fp).fs.files = st.fs.files ∧
    (processFile o f st fp).stats = dryStatsStep o st.stats fp := by
  rcases processFile_char o f st fp with ⟨hne, hpf⟩ |
    ⟨helig, ⟨d, hd, ⟨hnd, _, hpf⟩ | ⟨e, hnd, _, hpf⟩ | ⟨_, hpf⟩⟩ |
      ⟨hnone, hpf⟩⟩
  · rw [hpf]
    refine ⟨rfl, rfl, ?_⟩
    unfold dryStatsStep
    rw [if_neg hne]
  · rw [hdry] at hnd; cases hnd
  · rw [hdry] at hnd; cases hnd
  · rw [hpf]
    refine ⟨rfl, rfl, ?_⟩
    unfold dryStatsStep
    rw [if_pos helig]
  · rw [hpf]
    refine ⟨rfl, rfl, ?_⟩
    unfold dryStatsStep
    rw [if_pos helig]
    have hu := get_file_destination_none o st.fs fp hnone
    have : categoryOf o fp = "Unorganized" := by
      rw [← get_file_destination_fst o st.fs fp, hu]
    rw [this]

/-! ### Loop invariants over the whole file list -/

theorem foldl_undo_suffix (o : Organizer)
    (f : FPath → FPath → Option MoveErr) (total : Nat) :
    ∀ (files : List FPath) (st : RunState),
      ∃ l, (files.foldl (stepFile o f total) st).undo = st.undo ++ l ∧
        ∀ e ∈ l, f e.2 e.1 = none := by
  intro files
  induction files with
  | nil =>
    intro st
    exact ⟨[], by simp, by intro e he; cases he⟩
  | cons fp files ih =>
    intro st
    obtain ⟨l, hl, hsucc⟩ := ih (stepFile o f total st fp)
    have hstep := (stepFile_proj o f total st fp).1
    rcases processFile_undo o f st fp with hu | ⟨d, hd, hu⟩
    · exact ⟨l, by rw [List.foldl_cons] at *; rw [hl, hstep, hu], hsucc⟩
    · refine ⟨(d, fp) :: l, ?_, ?_⟩
      · rw [List.foldl_cons, hl, hstep, hu, List.append_assoc]
        rfl
      · intro e he
        rcases List.mem_cons.mp he with h1 | h2
        · rw [h1]; exact hd
        · exact hsucc e h2

theorem foldl_stats_sum (o : Organizer)
    (f : FPath → FPath → Option MoveErr) (total : Nat) :
    ∀ (files : List FPath) (st : RunState),
      keys st.stats = keys (initStats o.rules) →
      keys (files.foldl (stepFile o f total) st).stats =
          keys (initStats o.rules) ∧
        sumStats (files.foldl (stepFile o f total) st).stats =
          sumStats st.stats +
            (files.filter (fun fp => decide (eligible o fp))).length := by
  intro files
  induction files with
  | nil =>
    intro st hkeys
    exact ⟨hkeys, by simp⟩
  | cons fp files ih =>
    intro st hkeys
    have hstep := (stepFile_proj o f total st fp).2.1
    rcases processFile_stats o f st fp with ⟨hne, hst⟩ | ⟨helig, k, hk, hst⟩
    · have hkeys1 : keys (stepFile o f total st fp).stats =
          keys (initStats o.rules) := by
        rw [hstep, hst, hkeys]
      obtain ⟨h1, h2⟩ := ih (stepFile o f total st fp) hkeys1
      refine ⟨by rw [List.foldl_cons] at *; exact h1, ?_⟩
      rw [List.foldl_cons, h2, hstep, hst]
      have : (List.filter (fun fp => decide (eligible o fp)) (fp :: files)) =
          List.filter (fun fp => decide (eligible o fp)) files := by
        rw [List.filter_cons]
        rw [if_neg (by simpa using hne)]
      rw [this]
    · have hkeys1 : keys (stepFile o f total st fp).stats =
          keys (initStats o.rules) := by
        rw [hstep, hst, keys_dictInc, hkeys]
      obtain ⟨h1, h2⟩ := ih (stepFile o f total st fp) hkeys1
      refine ⟨by rw [List.foldl_cons] at *; exact h1, ?_⟩
      rw [List.foldl_cons, h2, hstep, hst]
      have hsum : sumStats (dictInc st.stats k) = sumStats st.stats + 1 := by
        apply sumStats_dictInc
        · rw [hkeys]; exact nodup_keys_initStats o.rules
        · rw [hkeys]; exact hk
      rw [hsum]
      have : (List.filter (fun fp => decide (eligible o fp)) (fp :: files)) =
          fp :: List.filter (fun fp => decide (eligible o fp)) files := by
        rw [List.filter_cons]
        rw [if_pos (by simpa using helig)]
      rw [this]
      simp only [List.length_cons]
      omega

theorem foldl_progress_length (o : Organizer)
    (f : FPath → FPath → Option MoveErr) (total : Nat) :
    ∀ (files : List FPath) (st : RunState),
      (files.foldl (stepFile o f total) st).progress.length =
        st.progress.length + (if 0 < total then files.length else 0) := by
  intro files
  induction files with
  | nil => intro st; simp
  | cons fp files ih =>
    intro st
    rw [List.foldl_cons, ih]
    have hstep := (stepFile_proj o f total st fp).2.2.2.2
    rw [hstep, processFile_progress]
    by_cases h : 0 < total
    · simp only [if_pos h, List.length_append, List.length_cons,
        List.length_nil]
      omega
    · simp only [if_neg h, List.append_nil, List.length_cons]

theorem foldl_dry (o : Organizer)
    (f : FPath → FPath → Option MoveErr) (total : Nat)
    (hdry : o.dry_run = true) :
    ∀ (files : List FPath) (st : RunState),
      (files.foldl (stepFile o f total) st).undo = st.undo ∧
      (files.foldl (stepFile o f total) st).fs.files = st.fs.files ∧
      (files.foldl (stepFile o f total) st).stats =
        files.foldl (dryStatsStep o) st.stats := by
  intro files
  induction files with
  | nil => intro st; exact ⟨rfl, rfl, rfl⟩
  | cons fp files ih =>
    intro st
    obtain ⟨hu, hf, hs⟩ := processFile_dry o f st fp hdry
    obtain ⟨ihu, ihf, ihs⟩ := ih (stepFile o f total st fp)
    have hproj := stepFile_proj o f total st fp
    refine ⟨?_, ?_, ?_⟩
    · rw [List.foldl_cons, ihu, hproj.1, hu]
    · rw [List.foldl_cons, ihf, hproj.2.2.1, hf]
    · rw [List.foldl_cons, List.foldl_cons, ihs, hproj.2.1, hs]

theorem foldl_dirs_mem (o : Organizer)
    (f : FPath → FPath → Option MoveErr) (total : Nat) :
    ∀ (files : List FPath) (st : RunState) (q : FPath),
      q ∈ st.fs.dirs →
      q ∈ (files.foldl (stepFile o f total) st).fs.dirs := by
  intro files
  induction files with
  | nil => intro st q h; exact h
  | cons fp files ih =>
    intro st q h
    rw [List.foldl_cons]
    apply ih
    rw [(stepFile_proj o f total st fp).2.2.1]
    exact processFile_dirs_mem o f st fp q h

/-! ### Run-level helper lemmas -/

theorem validate_false_iff (o : Organizer) (fs : FS) :
    o.validate fs = false ↔ (o.directory ∉ fs.dirs ∨ o.rules = []) := by
  unfold Organizer.validate
  constructor
  · intro h
    rcases Bool.and_eq_false_iff.mp h with h1 | h2
    · left
      intro hmem
      have : fs.dirs.contains o.directory = true := by simpa using hmem
      rw [this] at h1
      cases h1
    · right
      cases hr : o.rules with
      | nil => rfl
      | cons r rs => rw [hr] at h2; simp at h2
  · intro h
    rcases h with h1 | h2
    · apply Bool.and_eq_false_iff.mpr
      left
      cases hc : fs.dirs.contains o.directory with
      | false => rfl
      | true => exact absurd (by simpa using hc) h1
    · apply Bool.and_eq_false_iff.mpr
      right
      rw [h2]
      rfl

theorem organize_files_abort (o : Organizer) (fs : FS)
    (f : FPath → FPath → Option MoveErr) (hval : o.validate fs = false) :
    o.organize_files fs f =
      (o, { fs := fs
            log := ["Validation failed. Please check your directory and rules."]
            progress := []
            statsReports := [] }) := by
  unfold Organizer.organize_files
  rw [if_pos (by simp [hval])]

theorem organize_files_run (o : Organizer) (fs : FS)
    (f : FPath → FPath → Option MoveErr) (hval : o.validate fs = true) :
    o.organize_files fs f =
      (({ o with undo_actions :=
          ((filesUnder fs o.directory).foldl
            (stepFile o f (filesUnder fs o.directory).length)
            { fs := fs, undo := o.undo_actions, stats := initStats o.rules
              log := [], progress := [], count := 0 }).undo } : Organizer),
       { fs := ((filesUnder fs o.directory).foldl
            (stepFile o f (filesUnder fs o.directory).length)
            { fs := fs, undo := o.undo_actions, stats := initStats o.rules
              log := [], progress := [], count := 0 }).fs
         log := ((filesUnder fs o.directory).foldl
            (stepFile o f (filesUnder fs o.directory).length)
            { fs := fs, undo := o.undo_actions, stats := initStats o.rules
              log := [], progress := [], count := 0 }).log ++
            [if ¬ o.dry_run then "Organization complete!"
             else "Dry run complete. No files were actually moved."]
         progress := ((filesUnder fs o.directory).foldl
            (stepFile o f (filesUnder fs o.directory).length)
            { fs := fs, undo := o.undo_actions, stats := initStats o.rules
              log := [], progress := [], count := 0 }).progress
         statsReports := [((filesUnder fs o.directory).foldl
            (stepFile o f (filesUnder fs o.directory).length)
            { fs := fs, undo := o.undo_actions, stats := initStats o.rules
              log := [], progress := [], count := 0 }).stats] }) := by
  unfold Organizer.organize_files
  rw [if_neg (by simp [hval])]

theorem organize_undo_append (o : Organizer) (fs : FS)
    (f : FPath → FPath → Option MoveErr) :
    ∃ l, (o.organize_files fs f).1.undo_actions = o.undo_actions ++ l ∧
      ∀ e ∈ l, f e.2 e.1 = none := by
  cases hval : o.validate fs with
  | false =>
    rw [organize_files_abort o fs f hval]
    exact ⟨[], by simp, fun e he => absurd he (List.not_mem_nil e)⟩
  | true =>
    rw [organize_files_run o fs f hval]
    obtain ⟨l, hl, hs⟩ := foldl_undo_suffix o f
      (filesUnder fs o.directory).length (filesUnder fs o.directory)
      { fs := fs, undo := o.undo_actions, stats := initStats o.rules
        log := [], progress := [], count := 0 }
    exact ⟨l, hl, hs⟩

theorem undo_empty (o : Organizer) (fs : FS) (g : FPath → FPath → Bool)
    (h : o.undo_actions = []) : o.undo fs g = (o, fs, []) := by
  unfold Organizer.undo
  rw [h]
  rfl

theorem undo_clears (o : Organizer) (fs : FS) (g : FPath → FPath → Bool) :
    (o.undo fs g).1.undo_actions = [] := by
  unfold Organizer.undo
  cases hemp : o.undo_actions.isEmpty with
  | true =>
    rw [if_pos rfl]
    exact List.isEmpty_iff.mp hemp
  | false =>
    rw [if_neg (by simp [hemp])]

theorem uniqueLoop_nocollision (ex : String → Bool) (base ext : String)
    (fuel counter : Nat) (cur : String) (hf : 0 < fuel)
    (h : ex cur = false) :
    uniqueLoop ex base ext fuel counter cur = cur := by
  cases fuel with
  | zero => omega
  | succ fuel =>
    rw [uniqueLoop]
    simp [h]

theorem pyName_eq_self (s : String) (h : '/' ∉ s.data) : pyName s = s := by
  unfold pyName
  have heq : s.data.reverse.takeWhile (fun c => c ≠ '/') =
      s.data.reverse := by
    rw [List.takeWhile_eq_self_iff]
    intro x hx
    simp only [List.mem_reverse] at hx
    simp only [ne_eq, decide_eq_true_eq]
    intro hc
    exact h (hc ▸ hx)
  rw [heq, List.reverse_reverse]

theorem get_file_destination_nocollision (o : Organizer) (fs : FS)
    (rel : FPath) (r : Rule) (hrel : rel ≠ [])
    (hfind : o.rules.find?
      (fun ru => ru.extensions.contains
        (strToLower (pySuffix (lastComp (o.directory ++ rel))))) = some r)
    (hslash : '/' ∉ (lastComp rel).data)
    (hex : fs.existsb ((o.directory ++ [r.name]) ++ rel) = false) :
    o.get_file_destination fs (o.directory ++ rel) =
      (r.name, some ((o.directory ++ [r.name]) ++ rel)) := by
  unfold Organizer.get_file_destination
  dsimp only []
  rw [List.drop_left, hfind]
  have hlast : lastComp ((o.directory ++ [r.name]) ++ rel) = lastComp rel := by
    unfold lastComp
    rw [List.getLast?_append]
    cases hr : rel.getLast? with
    | none =>
      exact absurd (List.getLast?_eq_none_iff.mp hr) hrel
    | some a => rfl
  have hne : (o.directory ++ [r.name]) ++ rel ≠ [] := by
    intro hc
    rcases List.append_eq_nil.mp hc with ⟨_, h2⟩
    exact hrel h2
  have hsplit : ((o.directory ++ [r.name]) ++ rel).dropLast ++
      [lastComp ((o.directory ++ [r.name]) ++ rel)] =
      (o.directory ++ [r.name]) ++ rel := by
    unfold lastComp
    rw [List.getLast?_eq_getLast _ hne]
    exact List.dropLast_concat_getLast hne
  have hname : pyName (lastComp ((o.directory ++ [r.name]) ++ rel)) =
      lastComp ((o.directory ++ [r.name]) ++ rel) := by
    rw [hlast]
    exact pyName_eq_self _ hslash
  have hun : fs.uniqueIn ((o.directory ++ [r.name]) ++ rel).dropLast
      (lastComp ((o.directory ++ [r.name]) ++ rel)) =
      lastComp ((o.directory ++ [r.name]) ++ rel) := by
    unfold FS.uniqueIn get_unique_filename
    dsimp only []
    rw [hname]
    apply uniqueLoop_nocollision
    · unfold FS.fuel
      omega
    · rw [hsplit]
      exact hex
  dsimp only []
  rw [hun, hsplit]

theorem organize_dry_run (o : Organizer) (fs : FS)
    (f : FPath → FPath → Option MoveErr) (hdry : o.dry_run = true)
    (hval : o.validate fs = true) :
    (o.organize_files fs f).1.undo_actions = o.undo_actions ∧
    (o.organize_files fs f).2.fs.files = fs.files ∧
    (o.organize_files fs f).2.statsReports =
      [(filesUnder fs o.directory).foldl (dryStatsStep o)
        (initStats o.rules)] := by
  rw [organize_files_run o fs f hval]
  obtain ⟨hu, hf, hs⟩ := foldl_dry o f (filesUnder fs o.directory).length hdry
    (filesUnder fs o.directory)
    { fs := fs, undo := o.undo_actions, stats := initStats o.rules
      log := [], progress := [], count := 0 }
  exact ⟨hu, hf, by rw [hs]⟩

theorem organize_stats_progress (o : Organizer) (fs : FS)
    (f : FPath → FPath → Option MoveErr) (hval : o.validate fs = true) :
    (∃ s, (o.organize_files fs f).2.statsReports = [s] ∧
      sumStats s = ((filesUnder fs o.directory).filter
        (fun fp => decide (eligible o fp))).length) ∧
    (o.organize_files fs f).2.progress.length =
      (filesUnder fs o.directory).length := by
  rw [organize_files_run o fs f hval]
  refine ⟨⟨_, rfl, ?_⟩, ?_⟩
  · obtain ⟨h1, h2⟩ := foldl_stats_sum o f (filesUnder fs o.directory).length
      (filesUnder fs o.directory)
      { fs := fs, undo := o.undo_actions, stats := initStats o.rules
        log := [], progress := [], count := 0 } rfl
    rw [h2]
    have h0 : sumStats (initStats o.rules) = 0 := sumStats_initStats o.rules
    simp only [h0]
    omega
  · rw [foldl_progress_length o f (filesUnder fs o.directory).length
      (filesUnder fs o.directory)
      { fs := fs, undo := o.undo_actions, stats := initStats o.rules
        log := [], progress := [], count := 0 }]
    by_cases h : 0 < (filesUnder fs o.directory).length
    · simp [h]
    · simp only [if_neg h, List.length_nil]
      omega

theorem find?_ci_congr (rules : List Rule) (sfx : String)
    (hlow : ∀ r ∈ rules, ∀ e ∈ r.extensions, strToLower e = e) :
    rules.find? (fun r => r.extensions.contains (strToLower sfx)) =
      rules.find?
        (fun r => r.extensions.any (fun e => strToLower e = strToLower sfx)) := by
  induction rules with
  | nil => rfl
  | cons r rs ih =>
    have hr := hlow r (List.mem_cons_self r rs)
    have hiff : r.extensions.contains (strToLower sfx) = true ↔
        r.extensions.any (fun e => strToLower e = strToLower sfx) = true := by
      constructor
      · intro hc
        have hmem : strToLower sfx ∈ r.extensions := by simpa using hc
        rw [List.any_eq_true]
        exact ⟨strToLower sfx, hmem, by simp [hr _ hmem]⟩
      · intro ha
        obtain ⟨e, hmem, he⟩ := List.any_eq_true.mp ha
        have he2 : strToLower e = strToLower sfx := by simpa using he
        have he3 : e = strToLower sfx := by rw [← hr e hmem, he2]
        simpa [← he3] using hmem
    have heq : (r.extensions.contains (strToLower sfx)) =
        (r.extensions.any (fun e => strToLower e = strToLower sfx)) := by
      cases hc : r.extensions.contains (strToLower sfx) with
      | true => exact (hiff.mp hc).symm
      | false =>
        cases ha : r.extensions.any (fun e => strToLower e = strToLower sfx) with
        | false => rfl
        | true =>
          rw [hiff.mpr ha] at hc
          cases hc
    rw [List.find?_cons, List.find?_cons, heq]
    cases ha : r.extensions.any (fun e => strToLower e = strToLower sfx) with
    | true => rfl
    | false => exact ih (fun r2 hr2 => hlow r2 (List.mem_cons_of_mem _ hr2))

theorem filesUnder_congr (a b : FS) (d : FPath) (h : a.files = b.files) :
    filesUnder a d = filesUnder b d := by
  unfold filesUnder
  rw [h]

/-! ### The claims -/

/-- C1, counterexample: the code never clears `undo_actions` at the start of
a run, so running `organize_files` twice on the same instance accumulates
both runs' moves.  Concretely, after a first run moves `root/a.jpg` to
`root/Images/a.jpg` and a second (recursive) run moves that file again to
`root/Images/Images/a.jpg`, the second run's log shows exactly one "Moved"
line, yet the UndoLog holds the pairs of both runs (two entries, where the
claim predicts only the most recent run's single pair), and `undo()` then
moves the file all the way back to `root/a.jpg` — it reverses both runs, not
only the most recent one. -/
theorem C1_counterexample :
    (let o : Organizer :=
      { directory := ["root"]
        rules := [{ name := "Images", extensions := [".jpg"] }]
        recursive := true, dry_run := false, undo_actions := [] }
     let fs : FS := { files := [["root", "a.jpg"]], dirs := [["root"]] }
     let r1 := o.organize_files fs noFailMove
     let r2 := r1.1.organize_files r1.2.fs noFailMove
     r2.2.log =
        ["Moved Images/a.jpg to Images/Images/a.jpg",
         "Organization complete!"] ∧
     r2.1.undo_actions =
        [(["root", "Images", "a.jpg"], ["root", "a.jpg"]),
         (["root", "Images", "Images", "a.jpg"],
          ["root", "Images", "a.jpg"])] ∧
     (r2.1.undo r2.2.fs noFailUndo).2.1.files = [["root", "a.jpg"]]) := by
  exact ⟨rfl, rfl, rfl⟩

/-- C1, amended: a real run appends one `(new-location, original-location)`
pair per successful move to the UndoLog it already holds — the log is never
reset at the start of a run, so it accumulates the successful moves of every
run since the instance's construction (or last undo), and `undo()` reverses
all of them, not only the most recent run's. -/
theorem C1_undo_log_accumulates (o : Organizer) (fs : FS)
    (f : FPath → FPath → Option MoveErr) :
    ∃ l, (o.organize_files fs f).1.undo_actions = o.undo_actions ++ l ∧
      ∀ e ∈ l, f e.2 e.1 = none := by
  exact organize_undo_append o fs f

/-- C1, witness for the amended theorem at a concrete input. -/
theorem C1_undo_log_accumulates_witness :
    ∃ l, ((⟨["root"], [⟨"Images", [".jpg"]⟩], true, false, []⟩ :
        Organizer).organize_files
        (⟨[["root", "a.jpg"]], [["root"]]⟩ : FS)
        noFailMove).1.undo_actions =
        (⟨["root"], [⟨"Images", [".jpg"]⟩], true, false, []⟩ :
          Organizer).undo_actions ++ l ∧
      ∀ e ∈ l, noFailMove e.2 e.1 = none :=
  C1_undo_log_accumulates
    (⟨["root"], [⟨"Images", [".jpg"]⟩], true, false, []⟩ : Organizer)
    (⟨[["root", "a.jpg"]], [["root"]]⟩ : FS) noFailMove

/-- C2, counterexample: a dry run is not free of filesystem mutation — the
`mkdir(parents=True)` call at line 119 runs before the `dry_run` test, so a
dry run over `root/a.jpg` with an "Images" rule creates the directory
`root/Images`. -/
theorem C2_counterexample :
    ((⟨["root"], [⟨"Images", [".jpg"]⟩], false, true, []⟩ :
        Organizer).organize_files
      (⟨[["root", "a.jpg"]], [["root"]]⟩ : FS) noFailMove).2.fs.dirs =
        [["root"], ["root", "Images"]] ∧
    (⟨[["root", "a.jpg"]], [["root"]]⟩ : FS).dirs = [["root"]] ∧
    ((⟨["root"], [⟨"Images", [".jpg"]⟩], false, true, []⟩ :
        Organizer).organize_files
      (⟨[["root", "a.jpg"]], [["root"]]⟩ : FS) noFailMove).2.fs ≠
      (⟨[["root", "a.jpg"]], [["root"]]⟩ : FS) := by
  exact ⟨rfl, rfl, by decide⟩

/-- C2, amended: a dry run moves no files and appends no UndoLog entries
(it can still create destination parent directories, which is the only
mutation): the set of files is unchanged, the UndoLog is exactly what it was
before, and a second dry run on the resulting tree reports identical Stats. -/
theorem C2_dry_run (o : Organizer) (fs : FS)
    (f g : FPath → FPath → Option MoveErr) (hdry : o.dry_run = true) :
    (o.organize_files fs f).1.undo_actions = o.undo_actions ∧
    (o.organize_files fs f).2.fs.files = fs.files ∧
    ((o.organize_files fs f).1.organize_files
      (o.organize_files fs f).2.fs g).1.undo_actions = o.undo_actions ∧
    ((o.organize_files fs f).1.organize_files
      (o.organize_files fs f).2.fs g).2.fs.files = fs.files ∧
    ((o.organize_files fs f).1.organize_files
      (o.organize_files fs f).2.fs g).2.statsReports =
      (o.organize_files fs f).2.statsReports := by
  cases hval : o.validate fs with
  | false =>
    rw [organize_files_abort o fs f hval]
    dsimp only []
    rw [organize_files_abort o fs g hval]
    exact ⟨rfl, rfl, rfl, rfl, rfl⟩
  | true =>
    have hval0 := hval
    unfold Organizer.validate at hval0
    simp only [Bool.and_eq_true] at hval0
    obtain ⟨hc, hne⟩ := hval0
    have hmem : o.directory ∈ fs.dirs := by simpa using hc
    rw [organize_files_run o fs f hval]
    dsimp only []
    obtain ⟨hu, hf, hs⟩ := foldl_dry o f
      (filesUnder fs o.directory).length hdry (filesUnder fs o.directory)
      { fs := fs, undo := o.undo_actions, stats := initStats o.rules
        log := [], progress := [], count := 0 }
    have hmem2 : o.directory ∈
        ((filesUnder fs o.directory).foldl
          (stepFile o f (filesUnder fs o.directory).length)
          { fs := fs, undo := o.undo_actions, stats := initStats o.rules
            log := [], progress := [], count := 0 }).fs.dirs :=
      foldl_dirs_mem o f (filesUnder fs o.directory).length
        (filesUnder fs o.directory)
        { fs := fs, undo := o.undo_actions, stats := initStats o.rules
          log := [], progress := [], count := 0 } o.directory hmem
    have hval2 : (({ o with undo_actions :=
        ((filesUnder fs o.directory).foldl
          (stepFile o f (filesUnder fs o.directory).length)
          { fs := fs, undo := o.undo_actions, stats := initStats o.rules
            log := [], progress := [], count := 0 }).undo } :
        Organizer).validate
        ((filesUnder fs o.directory).foldl
          (stepFile o f (filesUnder fs o.directory).length)
          { fs := fs, undo := o.undo_actions, stats := initStats o.rules
            log := [], progress := [], count := 0 }).fs) = true := by
      unfold Organizer.validate
      rw [Bool.and_eq_true]
      exact ⟨by simpa using hmem2, hne⟩
    obtain ⟨h2u, h2f, h2s⟩ := organize_dry_run
      ({ o with undo_actions :=
        ((filesUnder fs o.directory).foldl
          (stepFile o f (filesUnder fs o.directory).length)
          { fs := fs, undo := o.undo_actions, stats := initStats o.rules
            log := [], progress := [], count := 0 }).undo } : Organizer)
      ((filesUnder fs o.directory).foldl
        (stepFile o f (filesUnder fs o.directory).length)
        { fs := fs, undo := o.undo_actions, stats := initStats o.rules
          log := [], progress := [], count := 0 }).fs g hdry hval2
    refine ⟨hu, hf, h2u.trans hu, h2f.trans hf, ?_⟩
    rw [h2s]
    have hfu := filesUnder_congr
      ((filesUnder fs o.directory).foldl
        (stepFile o f (filesUnder fs o.directory).length)
        { fs := fs, undo := o.undo_actions, stats := initStats o.rules
          log := [], progress := [], count := 0 }).fs
      ({ fs := fs, undo := o.undo_actions, stats := initStats o.rules
         log := [], progress := [], count := 0 } : RunState).fs
      (({ o with undo_actions :=
        ((filesUnder fs o.directory).foldl
          (stepFile o f (filesUnder fs o.directory).length)
          { fs := fs, undo := o.undo_actions, stats := initStats o.rules
            log := [], progress := [], count := 0 }).undo } :
        Organizer).directory) hf
    have hfun : dryStatsStep ({ o with undo_actions :=
        ((filesUnder fs o.directory).foldl
          (stepFile o f (filesUnder fs o.directory).length)
          { fs := fs, undo := o.undo_actions, stats := initStats o.rules
            log := [], progress := [], count := 0 }).undo } : Organizer) =
        dryStatsStep o := funext fun d => funext fun fp => rfl
    rw [hfu, hfun, hs]

/-- C2, witness for the amended theorem at a concrete input. -/
theorem C2_dry_run_witness :
    ((⟨["root"], [⟨"Images", [".jpg"]⟩], false, true, []⟩ :
        Organizer).organize_files (⟨[["root", "a.jpg"]], [["root"]]⟩ : FS)
        noFailMove).1.undo_actions =
      (⟨["root"], [⟨"Images", [".jpg"]⟩], false, true, []⟩ :
        Organizer).undo_actions ∧
    ((⟨["root"], [⟨"Images", [".jpg"]⟩], false, true, []⟩ :
        Organizer).organize_files (⟨[["root", "a.jpg"]], [["root"]]⟩ : FS)
        noFailMove).2.fs.files =
      (⟨[["root", "a.jpg"]], [["root"]]⟩ : FS).files ∧
    (((⟨["root"], [⟨"Images", [".jpg"]⟩], false, true, []⟩ :
        Organizer).organize_files (⟨[["root", "a.jpg"]], [["root"]]⟩ : FS)
        noFailMove).1.organize_files
      ((⟨["root"], [⟨"Images", [".jpg"]⟩], false, true, []⟩ :
        Organizer).organize_files (⟨[["root", "a.jpg"]], [["root"]]⟩ : FS)
        noFailMove).2.fs noFailMove).1.undo_actions =
      (⟨["root"], [⟨"Images", [".jpg"]⟩], false, true, []⟩ :
        Organizer).undo_actions ∧
    (((⟨["root"], [⟨"Images", [".jpg"]⟩], false, true, []⟩ :
        Organizer).organize_files (⟨[["root", "a.jpg"]], [["root"]]⟩ : FS)
        noFailMove).1.organize_files
      ((⟨["root"], [⟨"Images", [".jpg"]⟩], false, true, []⟩ :
        Organizer).organize_files (⟨[["root", "a.jpg"]], [["root"]]⟩ : FS)
        noFailMove).2.fs noFailMove).2.fs.files =
      (⟨[["root", "a.jpg"]], [["root"]]⟩ : FS).files ∧
    (((⟨["root"], [⟨"Images", [".jpg"]⟩], false, true, []⟩ :
        Organizer).organize_files (⟨[["root", "a.jpg"]], [["root"]]⟩ : FS)
        noFailMove).1.organize_files
      ((⟨["root"], [⟨"Images", [".jpg"]⟩], false, true, []⟩ :
        Organizer).organize_files (⟨[["root", "a.jpg"]], [["root"]]⟩ : FS)
        noFailMove).2.fs noFailMove).2.statsReports =
      ((⟨["root"], [⟨"Images", [".jpg"]⟩], false, true, []⟩ :
        Organizer).organize_files (⟨[["root", "a.jpg"]], [["root"]]⟩ : FS)
        noFailMove).2.statsReports :=
  C2_dry_run (⟨["root"], [⟨"Images", [".jpg"]⟩], false, true, []⟩ : Organizer)
    (⟨[["root", "a.jpg"]], [["root"]]⟩ : FS) noFailMove noFailMove rfl

/-- C3, counterexample: matching is not case-insensitive with respect to the
rule's stored extension strings.  A rule storing exactly ".JPG" never
matches the file "root/a.JPG", even though the file's suffix is the very
string ".JPG" stored in the rule: the code lower-cases only the file's
suffix (".jpg") and tests verbatim membership in the stored list. -/
theorem C3_counterexample :
    pySuffix (lastComp ["root", "a.JPG"]) = ".JPG" ∧
    ".JPG" ∈ (⟨"Images", [".JPG"]⟩ : Rule).extensions ∧
    (⟨["root"], [⟨"Images", [".JPG"]⟩], true, false, []⟩ :
        Organizer).get_file_destination
      (⟨[["root", "a.JPG"]], [["root"]]⟩ : FS) ["root", "a.JPG"] =
      ("Unorganized", none) := by
  exact ⟨rfl, by decide, rfl⟩

/-- C3, amended: the code lower-cases only the file's suffix and tests
verbatim membership in the stored extension list, so matching is
case-insensitive in the file's name only when the stored extensions are
themselves lower-case: for every rule set whose stored extensions are
lower-case, the category returned by `_get_file_destination` is that of the
first rule containing a string equal up to letter case to the file's suffix
(the spec's reading, `specMatchCI`). -/
theorem C3_match_lowercase_rules (o : Organizer) (fs : FS) (fp : FPath)
    (hlow : ∀ r ∈ o.rules, ∀ e ∈ r.extensions, strToLower e = e) :
    (o.get_file_destination fs fp).1 =
      specMatchCI o.rules (pySuffix (lastComp fp)) := by
  rw [get_file_destination_fst]
  unfold categoryOf specMatchCI
  rw [find?_ci_congr o.rules (pySuffix (lastComp fp)) hlow]

/-- C3, witness for the amended theorem at a concrete input. -/
theorem C3_match_lowercase_rules_witness :
    (∀ r ∈ (⟨["root"], [⟨"Images", [".jpg"]⟩], true, false, []⟩ :
        Organizer).rules, ∀ e ∈ r.extensions, strToLower e = e) ∧
    ((⟨["root"], [⟨"Images", [".jpg"]⟩], true, false, []⟩ :
        Organizer).get_file_destination
      (⟨[["root", "a.JPG"]], [["root"]]⟩ : FS) ["root", "a.JPG"]).1 =
      specMatchCI (⟨["root"], [⟨"Images", [".jpg"]⟩], true, false, []⟩ :
        Organizer).rules (pySuffix (lastComp ["root", "a.JPG"])) :=
  ⟨by decide,
   C3_match_lowercase_rules
     (⟨["root"], [⟨"Images", [".jpg"]⟩], true, false, []⟩ : Organizer)
     (⟨[["root", "a.JPG"]], [["root"]]⟩ : FS) ["root", "a.JPG"] (by decide)⟩

/-- C4, counterexample: when a file already exists at the computed
destination, `_get_file_destination` does not return
`root/ruleName/(relative path)` as the claim states, but a disambiguated
path: with `root/Images/a.jpg` already present, resolving `root/a.jpg`
yields `root/Images/a_1.jpg`. -/
theorem C4_counterexample :
    (⟨["root"], [⟨"Images", [".jpg"]⟩], true, false, []⟩ :
        Organizer).get_file_destination
      (⟨[["root", "a.jpg"], ["root", "Images", "a.jpg"]],
        [["root"], ["root", "Images"]]⟩ : FS) ["root", "a.jpg"] =
      ("Images", some ["root", "Images", "a_1.jpg"]) ∧
    some (["root", "Images", "a_1.jpg"] : FPath) ≠
      some (["root", "Images", "a.jpg"] : FPath) := by
  exact ⟨rfl, by decide⟩

/-- C4, amended: `_get_file_destination` scans the rule list in order for
the first rule containing the file's lower-cased suffix; when no file or
directory exists at the computed destination it returns exactly
`(rule.name, root/ruleName/(relative path))`, preserving subdirectory
structure (the final name is disambiguated only on collision, see the
counterexample); when no rule matches it returns `("Unorganized", none)`. -/
theorem C4_resolve (o : Organizer) (fs : FS) (fp rel : FPath) (r : Rule)
    (hrel : rel ≠ [])
    (hfind : o.rules.find?
      (fun ru => ru.extensions.contains
        (strToLower (pySuffix (lastComp (o.directory ++ rel))))) = some r)
    (hslash : '/' ∉ (lastComp rel).data)
    (hex : fs.existsb ((o.directory ++ [r.name]) ++ rel) = false)
    (hnone : o.rules.find?
      (fun ru => ru.extensions.contains
        (strToLower (pySuffix (lastComp fp)))) = none) :
    o.get_file_destination fs (o.directory ++ rel) =
      (r.name, some ((o.directory ++ [r.name]) ++ rel)) ∧
    o.get_file_destination fs fp = ("Unorganized", none) := by
  constructor
  · exact get_file_destination_nocollision o fs rel r hrel hfind hslash hex
  · unfold Organizer.get_file_destination
    dsimp only []
    rw [hnone]

/-- C4, witness: a file in a subdirectory, `root/sub/a.jpg`, resolves to
`root/Images/sub/a.jpg` (structure preserved, not flattened), and a file
matching no rule resolves to `("Unorganized", none)`. -/
theorem C4_resolve_witness :
    (⟨["root"], [⟨"Images", [".jpg"]⟩], true, false, []⟩ :
        Organizer).get_file_destination
      (⟨[["root", "sub", "a.jpg"]], [["root"]]⟩ : FS)
      (["root"] ++ ["sub", "a.jpg"]) =
      ("Images", some ((["root"] ++ ["Images"]) ++ ["sub", "a.jpg"])) ∧
    (⟨["root"], [⟨"Images", [".jpg"]⟩], true, false, []⟩ :
        Organizer).get_file_destination
      (⟨[["root", "sub", "a.jpg"]], [["root"]]⟩ : FS) ["root", "b.dat"] =
      ("Unorganized", none) :=
  C4_resolve
    (⟨["root"], [⟨"Images", [".jpg"]⟩], true, false, []⟩ : Organizer)
    (⟨[["root", "sub", "a.jpg"]], [["root"]]⟩ : FS)
    ["root", "b.dat"] ["sub", "a.jpg"] ⟨"Images", [".jpg"]⟩
    (by decide) (by decide) (by decide) (by decide) (by decide)

/-- C5: collision resolution inserts the numeric disambiguator before the
last dot-separated segment and increments until the name is free —
`file.jpg` with `file.jpg` present yields `file_1.jpg`, with `file_1.jpg`
also present yields `file_2.jpg`, `archive.tar.gz` yields
`archive.tar_1.gz`, a dotless `README` yields `README_1` — and with no
collision the name is returned unchanged. -/
theorem C5_unique_filename :
    get_unique_filename_in ["file.jpg"] "file.jpg" = "file_1.jpg" ∧
    get_unique_filename_in ["file.jpg", "file_1.jpg"] "file.jpg" =
      "file_2.jpg" ∧
    get_unique_filename_in ["archive.tar.gz"] "archive.tar.gz" =
      "archive.tar_1.gz" ∧
    get_unique_filename_in ["README"] "README" = "README_1" ∧
    get_unique_filename_in [] "file.jpg" = "file.jpg" ∧
    ∀ (ex : String → Bool) (fuel : Nat) (s : String), 0 < fuel →
      '/' ∉ s.data → ex s = false → get_unique_filename ex fuel s = s := by
  refine ⟨rfl, rfl, rfl, rfl, rfl, ?_⟩
  intro ex fuel s hf hsl hex
  unfold get_unique_filename
  dsimp only []
  rw [pyName_eq_self s hsl]
  exact uniqueLoop_nocollision ex _ _ fuel 1 s hf hex

/-- C5, witness for the no-collision clause at a concrete input. -/
theorem C5_unique_filename_witness :
    get_unique_filename (fun _ => false) 1 "file.jpg" = "file.jpg" :=
  C5_unique_filename.2.2.2.2.2 (fun _ => false) 1 "file.jpg" (by decide)
    (by decide) rfl

/-- C6: a per-file move failure increments "Unorganized", appends nothing
to the UndoLog and only creates the destination directories (first
conjunct); every UndoLog entry of a run was already there or corresponds to
a move the oracle let succeed (second conjunct); and in a concrete
three-file run where moving `b.jpg` raises a permission error, the other
two files still move, Stats reads Images 1 / Documents 1 / Unorganized 1,
the UndoLog holds exactly the two successful pairs, and the log shows the
error line between the two "Moved" lines (third conjunct). -/
theorem C6_partial_failure :
    (∀ (o : Organizer) (f : FPath → FPath → Option MoveErr)
        (st : RunState) (fp d : FPath) (e : MoveErr),
      o.dry_run = false → eligible o fp →
      (o.get_file_destination st.fs fp).2 = some d → f fp d = some e →
      processFile o f st fp =
        { st with
          fs := st.fs.mkdirParents d.dropLast
          log := st.log ++ [errLine e (fp.drop o.directory.length)]
          stats := dictInc st.stats "Unorganized" }) ∧
    (∀ (o : Organizer) (fs : FS) (f : FPath → FPath → Option MoveErr),
      ∀ e ∈ (o.organize_files fs f).1.undo_actions,
        e ∈ o.undo_actions ∨ f e.2 e.1 = none) ∧
    ((let o : Organizer :=
        ⟨["root"], [⟨"Images", [".jpg"]⟩, ⟨"Documents", [".txt"]⟩],
         false, false, []⟩
      let fs : FS :=
        ⟨[["root", "a.jpg"], ["root", "b.jpg"], ["root", "c.txt"]],
         [["root"]]⟩
      let f : FPath → FPath → Option MoveErr := fun src _ =>
        if src = ["root", "b.jpg"] then some MoveErr.permission else none
      let r := o.organize_files fs f
      r.2.statsReports =
        [[("Images", 1), ("Documents", 1), ("Unorganized", 1)]] ∧
      r.1.undo_actions =
        [(["root", "Images", "a.jpg"], ["root", "a.jpg"]),
         (["root", "Documents", "c.txt"], ["root", "c.txt"])] ∧
      r.2.log =
        ["Moved a.jpg to Images/a.jpg",
         "Error: Permission denied for b.jpg. Skipping.",
         "Moved c.txt to Documents/c.txt",
         "Organization complete!"])) := by
  refine ⟨?_, ?_, rfl, rfl, rfl⟩
  · intro o f st fp d e hdry helig hd hfail
    rcases processFile_char o f st fp with ⟨hne, _⟩ | ⟨_, hrest⟩
    · exact absurd helig hne
    · rcases hrest with ⟨d2, hd2, hcase⟩ | ⟨hnone, _⟩
      · have hdd : d2 = d := by
          rw [hd2] at hd
          injection hd
        subst hdd
        rcases hcase with ⟨_, hf2, _⟩ | ⟨e2, _, hf2, hpf⟩ | ⟨hdry2, _⟩
        · rw [hfail] at hf2
          cases hf2
        · rw [hfail] at hf2
          injection hf2 with he
          subst he
          exact hpf
        · rw [hdry] at hdry2
          cases hdry2
      · rw [hnone] at hd
        cases hd
  · intro o fs f e he
    obtain ⟨l, hl, hs⟩ := organize_undo_append o fs f
    rw [hl] at he
    rcases List.mem_append.mp he with h1 | h2
    · exact Or.inl h1
    · exact Or.inr (hs e h2)

/-- C6, witness: the failure conjunct applied to the concrete permission
failure on `root/b.jpg`, and the UndoLog-membership conjunct applied to one
of the successful pairs. -/
theorem C6_partial_failure_witness :
    processFile
      (⟨["root"], [⟨"Images", [".jpg"]⟩, ⟨"Documents", [".txt"]⟩],
        false, false, []⟩ : Organizer)
      (fun src _ =>
        if src = ["root", "b.jpg"] then some MoveErr.permission else none)
      (⟨⟨[["root", "b.jpg"]], [["root"]]⟩, [],
        [("Images", 0), ("Documents", 0), ("Unorganized", 0)], [], [], 0⟩ :
        RunState)
      ["root", "b.jpg"] =
      (⟨⟨[["root", "b.jpg"]], [["root"], ["root", "Images"]]⟩, [],
        [("Images", 0), ("Documents", 0), ("Unorganized", 1)],
        ["Error: Permission denied for b.jpg. Skipping."], [], 0⟩ :
        RunState) ∧
    ((["root", "Images", "a.jpg"], ["root", "a.jpg"]) ∈
        ([] : List (FPath × FPath)) ∨
      (fun (src : FPath) (_ : FPath) =>
        if src = ["root", "b.jpg"] then some MoveErr.permission else none)
        ["root", "a.jpg"] ["root", "Images", "a.jpg"] = none) :=
  ⟨C6_partial_failure.1
    (⟨["root"], [⟨"Images", [".jpg"]⟩, ⟨"Documents", [".txt"]⟩],
      false, false, []⟩ : Organizer)
    (fun src _ =>
      if src = ["root", "b.jpg"] then some MoveErr.permission else none)
    (⟨⟨[["root", "b.jpg"]], [["root"]]⟩, [],
      [("Images", 0), ("Documents", 0), ("Unorganized", 0)], [], [], 0⟩ :
      RunState)
    ["root", "b.jpg"] ["root", "Images", "b.jpg"] MoveErr.permission rfl
    (by decide) rfl rfl,
   C6_partial_failure.2.1
    (⟨["root"], [⟨"Images", [".jpg"]⟩, ⟨"Documents", [".txt"]⟩],
      false, false, []⟩ : Organizer)
    (⟨[["root", "a.jpg"], ["root", "b.jpg"], ["root", "c.txt"]],
      [["root"]]⟩ : FS)
    (fun src _ =>
      if src = ["root", "b.jpg"] then some MoveErr.permission else none)
    (["root", "Images", "a.jpg"], ["root", "a.jpg"]) (by decide)⟩

/-- C7: `undo()` is a no-op on an empty UndoLog (first conjunct); the
UndoLog is emptied at the end of every `undo()` call regardless of
failures (second conjunct); and a concrete two-entry undo shows the
reversals run most-recent-first, a failing reversal (the second entry,
processed first) is logged and does not stop the remaining one, which
restores its file (third conjunct). -/
theorem C7_undo_behaviour :
    (∀ (o : Organizer) (fs : FS) (g : FPath → FPath → Bool),
      o.undo_actions = [] → o.undo fs g = (o, fs, [])) ∧
    (∀ (o : Organizer) (fs : FS) (g : FPath → FPath → Bool),
      (o.undo fs g).1.undo_actions = []) ∧
    ((let o : Organizer :=
        ⟨["root"], [⟨"Images", [".jpg"]⟩], false, false,
         [(["root", "Images", "a.jpg"], ["root", "a.jpg"]),
          (["root", "Docs", "b.txt"], ["root", "b.txt"])]⟩
      let fs : FS :=
        ⟨[["root", "Images", "a.jpg"], ["root", "Docs", "b.txt"]],
         [["root"], ["root", "Images"], ["root", "Docs"]]⟩
      let g : FPath → FPath → Bool := fun src _ =>
        src = ["root", "Docs", "b.txt"]
      let u := o.undo fs g
      u.1.undo_actions = [] ∧
      u.2.1.files = [["root", "Docs", "b.txt"], ["root", "a.jpg"]] ∧
      u.2.2 =
        ["Error undoing move from root/Docs/b.txt to root/b.txt",
         "Moved root/Images/a.jpg back to root/a.jpg"])) := by
  refine ⟨fun o fs g h => undo_empty o fs g h,
    fun o fs g => undo_clears o fs g, rfl, rfl, rfl⟩

/-- C7, witness: the no-op conjunct applied to an instance with an empty
UndoLog. -/
theorem C7_undo_behaviour_witness :
    (⟨["root"], [⟨"Images", [".jpg"]⟩], false, false, []⟩ :
        Organizer).undo (⟨[], [["root"]]⟩ : FS) noFailUndo =
      ((⟨["root"], [⟨"Images", [".jpg"]⟩], false, false, []⟩ : Organizer),
       (⟨[], [["root"]]⟩ : FS), []) :=
  C7_undo_behaviour.1
    (⟨["root"], [⟨"Images", [".jpg"]⟩], false, false, []⟩ : Organizer)
    (⟨[], [["root"]]⟩ : FS) noFailUndo rfl

/-- C8: when the root is not an existing directory or the rule set is
empty, `organize_files` aborts before any work — the engine instance is
returned unchanged, the filesystem is untouched, exactly the single line
"Validation failed. Please check your directory and rules." is sent to the
log callback, and the progress and stats callbacks are never invoked. -/
theorem C8_validation_abort (o : Organizer) (fs : FS)
    (f : FPath → FPath → Option MoveErr)
    (h : o.directory ∉ fs.dirs ∨ o.rules = []) :
    o.organize_files fs f =
      (o, { fs := fs
            log := ["Validation failed. Please check your directory and rules."]
            progress := []
            statsReports := [] }) :=
  organize_files_abort o fs f ((validate_false_iff o fs).mpr h)

/-- C8, witness: abort on an empty rule set. -/
theorem C8_validation_abort_witness :
    (⟨["root"], [], false, false, []⟩ : Organizer).organize_files
      (⟨[["root", "a.jpg"]], [["root"]]⟩ : FS) noFailMove =
      ((⟨["root"], [], false, false, []⟩ : Organizer),
       { fs := (⟨[["root", "a.jpg"]], [["root"]]⟩ : FS)
         log := ["Validation failed. Please check your directory and rules."]
         progress := []
         statsReports := [] }) :=
  C8_validation_abort (⟨["root"], [], false, false, []⟩ : Organizer)
    (⟨[["root", "a.jpg"]], [["root"]]⟩ : FS) noFailMove (Or.inr rfl)

/-- C9: for every run that passes validation, the stats callback is invoked
once, the sum of the reported per-category counts equals the number of
enumerated files that were eligible under the recursive policy, and every
enumerated file — including skipped ones — produces exactly one progress
callback. -/
theorem C9_stats_sum (o : Organizer) (fs : FS)
    (f : FPath → FPath → Option MoveErr) (hval : o.validate fs = true) :
    (∃ s, (o.organize_files fs f).2.statsReports = [s] ∧
      sumStats s = ((filesUnder fs o.directory).filter
        (fun fp => decide (eligible o fp))).length) ∧
    (o.organize_files fs f).2.progress.length =
      (filesUnder fs o.directory).length :=
  organize_stats_progress o fs f hval

/-- C9, witness: a three-file run with a per-file failure still charges
every eligible file to exactly one category. -/
theorem C9_stats_sum_witness :
    (∃ s, ((⟨["root"],
        [⟨"Images", [".jpg"]⟩, ⟨"Documents", [".txt"]⟩], false, false, []⟩ :
          Organizer).organize_files
        (⟨[["root", "a.jpg"], ["root", "b.jpg"], ["root", "c.txt"]],
          [["root"]]⟩ : FS) noFailMove).2.statsReports = [s] ∧
      sumStats s = ((filesUnder
        (⟨[["root", "a.jpg"], ["root", "b.jpg"], ["root", "c.txt"]],
          [["root"]]⟩ : FS) (⟨["root"],
        [⟨"Images", [".jpg"]⟩, ⟨"Documents", [".txt"]⟩], false, false, []⟩ :
          Organizer).directory).filter
        (fun fp => decide (eligible (⟨["root"],
          [⟨"Images", [".jpg"]⟩, ⟨"Documents", [".txt"]⟩],
          false, false, []⟩ : Organizer) fp))).length) ∧
    ((⟨["root"],
        [⟨"Images", [".jpg"]⟩, ⟨"Documents", [".txt"]⟩], false, false, []⟩ :
          Organizer).organize_files
        (⟨[["root", "a.jpg"], ["root", "b.jpg"], ["root", "c.txt"]],
          [["root"]]⟩ : FS) noFailMove).2.progress.length =
      (filesUnder
        (⟨[["root", "a.jpg"], ["root", "b.jpg"], ["root", "c.txt"]],
          [["root"]]⟩ : FS) (⟨["root"],
        [⟨"Images", [".jpg"]⟩, ⟨"Documents", [".txt"]⟩], false, false, []⟩ :
          Organizer).directory).length :=
  C9_stats_sum
    (⟨["root"], [⟨"Images", [".jpg"]⟩, ⟨"Documents", [".txt"]⟩],
      false, false, []⟩ : Organizer)
    (⟨[["root", "a.jpg"], ["root", "b.jpg"], ["root", "c.txt"]],
      [["root"]]⟩ : FS) noFailMove rfl

/-- C10: for every destination directory with finitely many entries the
collision loop reaches a free name: the name returned by
`get_unique_filename` run against the entry list (with the fuel
`entries.length + 1`, which the pigeonhole argument shows is enough, since
successive candidates are pairwise distinct) does not occur among the
directory's entries. -/
theorem C10_unique_filename_free (entries : List String)
    (filename : String) :
    entries.contains (get_unique_filename_in entries filename) = false :=
  get_unique_filename_in_free entries filename
